import Mathlib

/-!
Verification development for the steam-rss pipeline (`src/main.rs`).

The program resolves AppIDs, store URLs and community user identifiers into
candidate Steam RSS feed URLs, optionally verifies each candidate over HTTP,
and emits the surviving URLs (or an OPML document).

Shallow-embedding conventions:
* Strings are modelled by Lean `String` / `List Char`.  All concrete inputs
  are ASCII, so Rust byte indices coincide with character indices.
* The HTTP client is an oracle `String → Response` (the spec treats it as an
  external collaborator `GET(url) -> {contentType, body}`).  The user-page
  scrape (HTTP fetch, `rgGames` capture and `serde_json` decode of the
  captured array) is an oracle `String → Option (List SteamApp)`; `none`
  models a failed `rgGames` capture (private profile), which the program
  reports and skips.  Run-aborting transport errors are not modelled.
* A Rust panic (an `unwrap` of `None`, or an inverted slice range) is made
  explicit: title extraction returns `Option`, and the verify loop maps a
  failed extraction to the `crash` outcome, which aborts the whole run.
-/

/-- ASCII lower-casing of one character, modelling the `(?i)` regex flag on
the ASCII inputs considered here. -/
def lowerChar (c : Char) : Char :=
  if 65 ≤ c.toNat ∧ c.toNat ≤ 90 then Char.ofNat (c.toNat + 32) else c

/-- ASCII decimal digit test, modelling regex `\d` on ASCII input. -/
def isAsciiDigit (c : Char) : Bool :=
  decide (48 ≤ c.toNat) && decide (c.toNat ≤ 57)

/-- ASCII word-character test, modelling regex `\w` on ASCII input. -/
def isWordChar (c : Char) : Bool :=
  (decide (97 ≤ c.toNat) && decide (c.toNat ≤ 122)) ||
  (decide (65 ≤ c.toNat) && decide (c.toNat ≤ 90)) ||
  (decide (48 ≤ c.toNat) && decide (c.toNat ≤ 57)) ||
  decide (c.toNat = 95)

/-- Case-insensitive literal matching: consume the characters of the
(lower-case) literal `pat` from the front of the input, returning the
remainder on success. -/
def ciLit : List Char → List Char → Option (List Char)
  | [], l => some l
  | _ :: _, [] => none
  | p :: ps, c :: cs => if lowerChar c = p then ciLit ps cs else none

/-- The regex metacharacter `.` (no `(?s)` flag): consume one character that
is not a newline. -/
def anyDot : List Char → Option (List Char)
  | [] => none
  | c :: cs => if c = '\n' then none else some cs

/-- The regex piece `s?` as it occurs after `http` in both URL regexes:
consume one `s`/`S` when present.  (Backtracking is not needed: when the
consumed character is an `s` the zero-width alternative would next require
`:`, which cannot succeed, so committing to the one-character match is
equivalent.) -/
def optS : List Char → List Char
  | [] => []
  | c :: cs => if lowerChar c = 's' then cs else c :: cs

/-- First occurrence (character index) of `pat` in the input, modelling
Rust's `str::find` on ASCII strings. -/
def findSub (pat : List Char) : List Char → Option Nat
  | [] => if pat.isPrefixOf ([] : List Char) then some 0 else none
  | c :: cs =>
    if pat.isPrefixOf (c :: cs) then some 0
    else (findSub pat cs).map (· + 1)

/-- Numeric value of an ASCII digit character. -/
def digitVal (c : Char) : Nat := c.toNat - 48

/-- Value of a decimal digit string, most significant digit first. -/
def digitsToNat (ds : List Char) : Nat :=
  ds.foldl (fun a c => a * 10 + digitVal c) 0

/-- Rust's `str::parse::<usize>().ok()` on a non-empty ASCII digit run:
the value, unless it overflows a 64-bit `usize`. -/
def parseUsize (ds : List Char) : Option Nat :=
  if digitsToNat ds < 2 ^ 64 then some (digitsToNat ds) else none

/-- Decimal digit characters of `n`, most significant first; fuel-based so
that it reduces in the kernel.  Fuel `n + 1` always suffices. -/
def natDigitsAux : Nat → Nat → List Char
  | 0, _ => []
  | fuel + 1, n =>
    if n < 10 then [Nat.digitChar n]
    else natDigitsAux fuel (n / 10) ++ [Nat.digitChar (n % 10)]

/-- Model of Rust's decimal `Display` for `usize` (used by `format!`). -/
def natDecimal (n : Nat) : String := String.mk (natDigitsAux (n + 1) n)

/-- The function `appid_to_rss_url` (src/main.rs line 250): the feed URL
for a displayable identifier. -/
def appid_to_rss_url (appid : String) : String :=
  "https://steamcommunity.com/games/" ++ appid ++ "/rss/"

/-- The function `userid_to_games_url` (src/main.rs line 255): the
games-list URL for a user identifier. -/
def userid_to_games_url (userid : String) : String :=
  "https://steamcommunity.com/id/" ++ userid ++ "/games/?tab=all"

/-- The `Feed` struct of src/main.rs. -/
structure Feed where
  friendly_url : Option String
  text : Option String
  url : String
deriving DecidableEq

/-- The JSON values a `friendlyURL` field can hold (`serde_json::Value`,
restricted to the shapes relevant to `SteamApp`). -/
inductive JValue where
  | str : String → JValue
  | bool : Bool → JValue
  | num : Int → JValue
  | null : JValue
deriving DecidableEq

/-- Rust's `Value::is_string`. -/
def JValue.isString : JValue → Bool
  | .str _ => true
  | _ => false

/-- The `SteamApp` struct of src/main.rs, as decoded from the scraped
`rgGames` JSON array. -/
structure SteamApp where
  appid : Nat
  name : String
  friendly_url : JValue
deriving DecidableEq

/-- The `store_url_regex` capture
(`(?i)^https?://store.steampowered.com/app/(?P<appid>\d+)`): anchored at the
start, case-insensitive, each `.` an unescaped metacharacter matching any
non-newline character; returns the greedily captured digit run. -/
def storeDigits (s : List Char) : Option (List Char) :=
  (ciLit "http".data s).bind fun r1 =>
  (ciLit "://store".data (optS r1)).bind fun r2 =>
  (anyDot r2).bind fun r3 =>
  (ciLit "steampowered".data r3).bind fun r4 =>
  (anyDot r4).bind fun r5 =>
  (ciLit "com/app/".data r5).bind fun r6 =>
  let ds := r6.takeWhile isAsciiDigit
  if ds.isEmpty then none else some ds

/-- The composite used by the `url` input loop (src/main.rs lines 126-130):
regex capture followed by `parse::<usize>().ok()`. -/
def extractAppIdFromStoreUrl (url : String) : Option Nat :=
  (storeDigits url.data).bind parseUsize

/-- The `user_id_regex` test (`(i?)^\w+$`, src/main.rs line 114).  The group
`(i?)` can only match the empty string at position 0, because the following
`^` must anchor at the start of the haystack; so `is_match` holds exactly
when the whole string is one or more word characters. -/
def looksLikeBareUserId (s : String) : Bool :=
  !s.data.isEmpty && s.data.all isWordChar

/-- One attempt of the `user_url_regex`
(`(?i)https?://steamcommunity.com/id/(?P<userid>\w+)`) at the current
position: on success returns the greedily captured word-character run. -/
def userIdAt (s : List Char) : Option (List Char) :=
  (ciLit "http".data s).bind fun r1 =>
  (ciLit "://steamcommunity".data (optS r1)).bind fun r2 =>
  (anyDot r2).bind fun r3 =>
  (ciLit "com/id/".data r3).bind fun r4 =>
  let id := r4.takeWhile isWordChar
  if id.isEmpty then none else some id

/-- Unanchored leftmost search with `user_url_regex`. -/
def searchUserId : List Char → Option (List Char)
  | [] => none
  | c :: cs =>
    match userIdAt (c :: cs) with
    | some r => some r
    | none => searchUserId cs

/-- The `user_url_regex` capture of the user id from a profile URL
(src/main.rs lines 143-147). -/
def extractUserIdFromProfileUrl (url : String) : Option String :=
  (searchUserId url.data).map String.mk

/-- The resolution of one raw `user` input to the games-list URL fetched by
the user loop (src/main.rs lines 141-150); `none` models the `continue`. -/
def resolveUserGamesUrl (user : String) : Option String :=
  if looksLikeBareUserId user then some (userid_to_games_url user)
  else
    match extractUserIdFromProfileUrl user with
    | some id => some (userid_to_games_url id)
    | none => none

/-- The candidate pushed for one direct `appid` input (src/main.rs
lines 118-124); also pushed for a store-URL input once its AppID has been
extracted (lines 131-137). -/
def appidFeed (appid : Nat) : Feed :=
  { friendly_url := none
    text := some ("Steam AppID " ++ natDecimal appid)
    url := appid_to_rss_url (natDecimal appid) }

/-- The candidate pushed for one scraped game (src/main.rs lines 161-173):
the friendly URL is set only when the JSON `friendlyURL` field is a string. -/
def gameFeed (game : SteamApp) : Feed :=
  { friendly_url :=
      match game.friendly_url with
      | .str s => some (appid_to_rss_url s)
      | _ => none
    text := some game.name
    url := appid_to_rss_url (natDecimal game.appid) }

/-- Candidates and stderr diagnostics contributed by one raw `user` input
(the body of the user loop, src/main.rs lines 140-181).  `scrape` is the
oracle for the HTTP fetch plus `rgGames` capture and JSON decode; `none`
models a failed capture, which prints the two hints and continues. -/
def userContribution (scrape : String → Option (List SteamApp))
    (user : String) : List Feed × List String :=
  match resolveUserGamesUrl user with
  | none => ([], [])
  | some userUrl =>
    match scrape userUrl with
    | some games => (games.map gameFeed, [])
    | none =>
      ([], ["Couldn\x27t scan games from: " ++ userUrl,
            "Make sure \"Game Details\" in Privacy Settings is set to Public."])

/-- The collection phase (src/main.rs lines 118-181): the three input loops
pushing onto `potential_feeds`, in program order, together with the stderr
diagnostics they print. -/
def collectFeeds (appids : List Nat) (urls : List String) (users : List String)
    (scrape : String → Option (List SteamApp)) : List Feed × List String :=
  let afterAppids := appids.foldl (fun acc appid => acc ++ [appidFeed appid]) []
  let afterUrls := urls.foldl (fun acc url =>
    match extractAppIdFromStoreUrl url with
    | some appid => acc ++ [appidFeed appid]
    | none => acc) afterAppids
  users.foldl (fun acc user =>
    let contrib := userContribution scrape user
    (acc.1 ++ contrib.1, acc.2 ++ contrib.2)) (afterUrls, [])

/-- One HTTP response as seen through `ureq` (`content_type()` and
`into_string()`). -/
structure Response where
  contentType : String
  body : String
deriving DecidableEq

/-- The `verify_feed` closure (src/main.rs lines 184-191): whether the
response declares `text/xml`, and its body. -/
def verify_feed (http : String → Response) (url : String) : Bool × String :=
  ((http url).contentType == "text/xml", (http url).body)

/-- The title extraction of the verify loop (src/main.rs lines 207-210):
`body.find("<title>").unwrap() + 7` and `body.find("</title>").unwrap()`,
then the byte slice between them.  `none` models the Rust panic: an `unwrap`
of a missing marker, or a slice whose start exceeds its end. -/
def extractTitle (body : String) : Option String :=
  match findSub "<title>".data body.data, findSub "</title>".data body.data with
  | some o, some c =>
    if o + 7 ≤ c then
      some (String.mk ((body.data.drop (o + 7)).take (c - (o + 7))))
    else none
  | _, _ => none

/-- Outcome of the verify loop body for one candidate. -/
inductive VerifyOutcome where
  | crash : VerifyOutcome
  | dropped : VerifyOutcome
  | confirmed : Feed → VerifyOutcome
deriving DecidableEq

/-- The body of the verify loop (src/main.rs lines 193-218): try the
candidate URL, fall back to the friendly URL when the primary response is
not `text/xml`, and on success rebuild the feed with the extracted title.
`crash` models the process-aborting panic of a failed title extraction. -/
def verifyStep (http : String → Response) (f : Feed) : VerifyOutcome :=
  let r1 := verify_feed http f.url
  if r1.1 then
    match extractTitle r1.2 with
    | some t => .confirmed { f with text := some t }
    | none => .crash
  else
    match f.friendly_url with
    | some fu =>
      let r2 := verify_feed http fu
      if r2.1 then
        match extractTitle r2.2 with
        | some t => .confirmed { f with url := fu, text := some t }
        | none => .crash
      else .dropped
    | none => .dropped

/-- The whole verify loop: the surviving feeds in order, or `none` when a
candidate crashed the process. -/
def verifyAll (http : String → Response) : List Feed → Option (List Feed)
  | [] => some []
  | f :: rest =>
    match verifyStep http f with
    | .crash => none
    | .dropped => verifyAll http rest
    | .confirmed g => (verifyAll http rest).map (g :: ·)

/-- One line of normal output: a plain feed URL, or the single OPML document
rendered by the external encoder from its (title, url) entries. -/
inductive OutLine where
  | url : String → OutLine
  | opmlDoc : List (String × String) → OutLine
deriving DecidableEq

/-- Observable result of a successful run: standard output and the error
stream. -/
structure RunResult where
  stdout : List OutLine
  stderr : List String
deriving DecidableEq

/-- The OPML entry added for one surviving feed (src/main.rs line 236):
`feed.text.unwrap_or_else(|| feed.url.clone())` and the URL. -/
def opmlEntry (f : Feed) : String × String := (f.text.getD f.url, f.url)

/-- Spec-side reading of the title rule: the text strictly between the end
of the first `<title>` and the start of the first `</title>` occurring after
that marker.  Compared with `extractTitle`, which searches for `</title>`
from the start of the body. -/
def specTitleExtract (body : String) : Option String :=
  match findSub "<title>".data body.data with
  | none => none
  | some o =>
    match findSub "</title>".data (body.data.drop (o + 7)) with
    | none => none
    | some k => some (String.mk ((body.data.drop (o + 7)).take k))

/-- Spec-side reading of the store-URL pattern with its dots taken as
literal characters, as the claim about `extractAppIdFromStoreUrl` words it.
Compared with `storeDigits`, whose dots are unescaped metacharacters. -/
def storeLiteralDigits (s : List Char) : Option (List Char) :=
  (ciLit "http".data s).bind fun r1 =>
  (ciLit "://store.steampowered.com/app/".data (optS r1)).bind fun r2 =>
  let ds := r2.takeWhile isAsciiDigit
  if ds.isEmpty then none else some ds

/-- Case-insensitive equality of a character run with a lower-case literal. -/
def CIis (x : List Char) (pat : String) : Prop := x.map lowerChar = pat.data

/-- Declarative shape of a prefix accepted by the head of `store_url_regex`:
`http`, an optional `s`, `://store`, any non-newline character,
`steampowered`, any non-newline character, `com/app/`, everything literal
matched case-insensitively. -/
def StoreHeadCI (pre : List Char) : Prop :=
  ∃ a s b d1 c d2 e,
    pre = a ++ s ++ b ++ [d1] ++ c ++ [d2] ++ e ∧
    CIis a "http" ∧ (s = [] ∨ ∃ sc, s = [sc] ∧ lowerChar sc = 's') ∧
    CIis b "://store" ∧ d1 ≠ '\n' ∧
    CIis c "steampowered" ∧ d2 ≠ '\n' ∧ CIis e "com/app/"

/-! ## Helper lemmas -/

theorem digitVal_digitChar (n : Nat) (h : n < 10) :
    digitVal (Nat.digitChar n) = n := by
  interval_cases n <;> rfl

theorem digitsToNat_append (ds : List Char) (c : Char) :
    digitsToNat (ds ++ [c]) = digitsToNat ds * 10 + digitVal c := by
  simp [digitsToNat, List.foldl_append]

theorem digitsToNat_natDigitsAux :
    ∀ fuel n, n < fuel → digitsToNat (natDigitsAux fuel n) = n := by
  intro fuel
  induction fuel with
  | zero => intro n h; omega
  | succ fuel ih =>
    intro n h
    by_cases h10 : n < 10
    · simp [natDigitsAux, h10, digitsToNat, digitVal_digitChar n h10]
    · have hdiv : n / 10 < fuel := by omega
      have hmod : n % 10 < 10 := by omega
      simp only [natDigitsAux, if_neg h10, digitsToNat_append, ih _ hdiv,
        digitVal_digitChar _ hmod]
      omega

theorem natDecimal_inj {m n : Nat} (h : natDecimal m = natDecimal n) : m = n := by
  have hm := digitsToNat_natDigitsAux (m + 1) m (Nat.lt_succ_self m)
  have hn := digitsToNat_natDigitsAux (n + 1) n (Nat.lt_succ_self n)
  have hd : natDigitsAux (m + 1) m = natDigitsAux (n + 1) n := congrArg String.data h
  rw [← hm, ← hn, hd]

theorem foldl_push_eq {α β : Type} (f : α → β) :
    ∀ (l : List α) (init : List β),
      l.foldl (fun acc a => acc ++ [f a]) init = init ++ l.map f := by
  intro l
  induction l with
  | nil => intro init; simp
  | cons a l ih => intro init; simp [ih]

theorem foldl_push_opt_eq {α β γ : Type} (g : α → Option γ) (f : γ → β) :
    ∀ (l : List α) (init : List β),
      l.foldl (fun acc a => acc ++ ((g a).map f).toList) init
        = init ++ l.filterMap (fun a => (g a).map f) := by
  intro l
  induction l with
  | nil => intro init; simp
  | cons a l ih =>
    intro init
    cases hga : g a <;> simp [List.foldl_cons, hga, ih, List.filterMap_cons]

theorem foldl_pair_eq {α β γ : Type} (h : α → List β × List γ) :
    ∀ (l : List α) (init : List β × List γ),
      l.foldl (fun acc a => (acc.1 ++ (h a).1, acc.2 ++ (h a).2)) init
        = (init.1 ++ (l.map fun a => (h a).1).flatten,
           init.2 ++ (l.map fun a => (h a).2).flatten) := by
  intro l
  induction l with
  | nil => intro init; simp
  | cons a l ih => intro init; simp [ih]

theorem collectFeeds_eq (appids : List Nat) (urls : List String)
    (users : List String) (scrape : String → Option (List SteamApp)) :
    collectFeeds appids urls users scrape
      = (appids.map appidFeed
          ++ urls.filterMap (fun url => (extractAppIdFromStoreUrl url).map appidFeed)
          ++ (users.map fun u => (userContribution scrape u).1).flatten,
         (users.map fun u => (userContribution scrape u).2).flatten) := by
  simp only [collectFeeds]
  have hfun :
      (fun (acc : List Feed) url =>
        match extractAppIdFromStoreUrl url with
        | some appid => acc ++ [appidFeed appid]
        | none => acc)
        = fun (acc : List Feed) url =>
            acc ++ (((extractAppIdFromStoreUrl url).map appidFeed).toList) := by
    funext acc url
    cases extractAppIdFromStoreUrl url <;> simp
  rw [foldl_push_eq appidFeed appids, hfun,
    foldl_push_opt_eq extractAppIdFromStoreUrl appidFeed,
    foldl_pair_eq (userContribution scrape)]
  simp [List.append_assoc]

/-- The whole pipeline (src/main.rs `main`, minus CLI glue): collection,
optional verification, empty check and output.  `none` models a panic
aborting the process; `some r` models the `Ok(())` exit with output `r`. -/
def runPipeline (appids : List Nat) (urls : List String) (users : List String)
    (scrape : String → Option (List SteamApp)) (verifyFlag opmlFlag : Bool)
    (http : String → Response) : Option RunResult :=
  let collected := collectFeeds appids urls users scrape
  let feedsOut := if verifyFlag then verifyAll http collected.1 else some collected.1
  feedsOut.map fun feeds =>
    if feeds.isEmpty then
      { stdout := [], stderr := collected.2 ++ ["No feeds found."] }
    else
      { stdout :=
          if opmlFlag then [OutLine.opmlDoc (feeds.map opmlEntry)]
          else feeds.map (fun f => OutLine.url f.url)
        stderr := collected.2 }

theorem findSub_drop (pat : List Char) :
    ∀ (k : Nat) (l : List Char) (c : Nat), findSub pat l = some c → k ≤ c →
      findSub pat (l.drop k) = some (c - k) := by
  intro k
  induction k with
  | zero => intro l c h _; simpa using h
  | succ k ih =>
    intro l c h hk
    cases l with
    | nil =>
      by_cases hp : pat.isPrefixOf ([] : List Char)
      · simp [findSub, hp] at h; omega
      · simp [findSub, hp] at h
    | cons x xs =>
      by_cases hp : pat.isPrefixOf (x :: xs)
      · simp [findSub, hp] at h; omega
      · simp only [findSub, if_neg hp, Option.map_eq_some'] at h
        obtain ⟨c', hc', rfl⟩ := h
        have := ih xs c' hc' (by omega)
        simpa [Nat.succ_sub_succ] using this

theorem extractTitle_spec {body t : String}
    (h : extractTitle body = some t) : specTitleExtract body = some t := by
  unfold extractTitle at h
  split at h
  next o c ho hc =>
    split at h
    next hle =>
      have hdrop := findSub_drop "</title>".data (o + 7) body.data c hc hle
      simp only [specTitleExtract, ho, hdrop]
      exact h
    next => exact absurd h (by simp)
  next => exact absurd h (by simp)

theorem verifyStep_confirmed_text {http : String → Response} {f g : Feed}
    (h : verifyStep http f = .confirmed g) :
    ∃ t, extractTitle (http g.url).body = some t ∧ g.text = some t := by
  unfold verifyStep verify_feed at h
  by_cases h1 : ((http f.url).contentType == "text/xml") = true
  · simp only [h1, if_true] at h
    cases ht : extractTitle (http f.url).body with
    | none => simp only [ht] at h; exact VerifyOutcome.noConfusion h
    | some t =>
      simp only [ht] at h
      cases h
      exact ⟨t, ht, rfl⟩
  · rw [Bool.not_eq_true] at h1
    simp only [h1, Bool.false_eq_true, if_false] at h
    cases hfu : f.friendly_url with
    | none => simp only [hfu] at h; exact VerifyOutcome.noConfusion h
    | some fu =>
      simp only [hfu] at h
      by_cases h2 : ((http fu).contentType == "text/xml") = true
      · simp only [h2, if_true] at h
        cases ht : extractTitle (http fu).body with
        | none => simp only [ht] at h; exact VerifyOutcome.noConfusion h
        | some t =>
          simp only [ht] at h
          cases h
          exact ⟨t, ht, rfl⟩
      · rw [Bool.not_eq_true] at h2
        simp only [h2, Bool.false_eq_true, if_false] at h
        exact VerifyOutcome.noConfusion h

theorem verifyAll_text (http : String → Response) :
    ∀ (l feeds : List Feed), verifyAll http l = some feeds →
      ∀ g ∈ feeds, ∃ t, g.text = some t := by
  intro l
  induction l with
  | nil =>
    intro feeds h g hg
    simp only [verifyAll, Option.some.injEq] at h
    subst h
    simp at hg
  | cons f rest ih =>
    intro feeds h g hg
    simp only [verifyAll] at h
    split at h
    · exact absurd h (by simp)
    · exact ih feeds h g hg
    next g0 hstep =>
      obtain ⟨rest', hrest, rfl⟩ := Option.map_eq_some'.mp h
      rcases List.mem_cons.mp hg with rfl | hg'
      · obtain ⟨t, _, hgt⟩ := verifyStep_confirmed_text hstep
        exact ⟨t, hgt⟩
      · exact ih rest' hrest g hg'

theorem userContribution_text (scrape : String → Option (List SteamApp))
    (u : String) :
    ∀ f ∈ (userContribution scrape u).1, ∃ t, f.text = some t := by
  intro f hf
  unfold userContribution at hf
  split at hf
  · simp at hf
  · split at hf
    next games _ =>
      simp only [List.mem_map] at hf
      obtain ⟨game, _, rfl⟩ := hf
      exact ⟨game.name, rfl⟩
    · simp at hf

/-! ## Claim theorems -/

/-- Claim C1: per-candidate verifier transition.  If the primary URL's
response has content type exactly `text/xml` the candidate is Confirmed (with
the feed's extracted title); otherwise, if a fallback URL is present and its
response has content type `text/xml`, the candidate is Confirmed with its
primary URL replaced by the fallback URL; in every other case the candidate
is Dropped and contributes nothing to the output.  (The title-extraction
hypotheses exclude the malformed-body panic, which is the subject of the
claim about missing title markers.) -/
theorem c1_verifier_transition (http : String → Response) (f : Feed) :
    (∀ t, (http f.url).contentType = "text/xml" →
        extractTitle (http f.url).body = some t →
        verifyStep http f = .confirmed { f with text := some t })
    ∧ (∀ fu t, (http f.url).contentType ≠ "text/xml" → f.friendly_url = some fu →
        (http fu).contentType = "text/xml" →
        extractTitle (http fu).body = some t →
        verifyStep http f = .confirmed { f with url := fu, text := some t })
    ∧ ((http f.url).contentType ≠ "text/xml" →
        (∀ fu, f.friendly_url = some fu → (http fu).contentType ≠ "text/xml") →
        verifyStep http f = .dropped
          ∧ ∀ rest, verifyAll http (f :: rest) = verifyAll http rest) := by
  refine ⟨?_, ?_, ?_⟩
  · intro t h1 h2
    simp [verifyStep, verify_feed, h1, h2]
  · intro fu t h1 h2 h3 h4
    simp [verifyStep, verify_feed, h1, h2, h3, h4]
  · intro h1 h2
    have hstep : verifyStep http f = .dropped := by
      cases hf : f.friendly_url with
      | none => simp [verifyStep, verify_feed, h1, hf]
      | some fu => simp [verifyStep, verify_feed, h1, hf, h2 fu hf]
    exact ⟨hstep, fun rest => by simp [verifyAll, hstep]⟩

/-- Witness for the verifier-transition claim at a concrete candidate and
response. -/
theorem c1_witness :
    verifyStep (fun _ => { contentType := "text/xml", body := "<x><title>T</title></x>" })
        (appidFeed 400)
      = .confirmed { appidFeed 400 with text := some "T" } :=
  (c1_verifier_transition
    (fun _ => { contentType := "text/xml", body := "<x><title>T</title></x>" })
    (appidFeed 400)).1 "T" rfl (by decide)

/-- Claim C2 (code bug in the source): on a confirmed response whose body
lacks the `<title>`/`</title>` markers the verify loop does not drop the
candidate and continue — line 207 of src/main.rs unwraps the failed
`find`, which panics and aborts the whole run, so the remaining candidates
are never processed and no output is produced. -/
theorem c2_missing_title_crashes :
    verifyStep (fun _ => { contentType := "text/xml", body := "<rss>no markers</rss>" })
        (appidFeed 400) = .crash
    ∧ verifyAll (fun _ => { contentType := "text/xml", body := "<rss>no markers</rss>" })
        [appidFeed 400, appidFeed 620] = none := by
  constructor
  · decide
  · decide

/-- Claim C3: whenever a candidate is Confirmed, its recorded display title
is exactly the text strictly between the end of the first `<title>` marker
and the start of the first `</title>` marker occurring after it in the
confirmed response body.  (When the code Confirms, the globally first
`</title>` lies after the first `<title>`, and is then also the first one
after that marker.) -/
theorem c3_confirmed_title (http : String → Response) (f g : Feed)
    (h : verifyStep http f = .confirmed g) :
    specTitleExtract (http g.url).body = g.text := by
  obtain ⟨t, ht, hg⟩ := verifyStep_confirmed_text h
  rw [hg, extractTitle_spec ht]

/-- Witness for the title claim: the spec's own example body. -/
theorem c3_witness :
    specTitleExtract "<?xml version=\"1.0\"?><title>My Feed</title>rest"
      = some "My Feed" := by
  have h := c3_confirmed_title
    (fun _ => { contentType := "text/xml",
                body := "<?xml version=\"1.0\"?><title>My Feed</title>rest" })
    (appidFeed 400) { appidFeed 400 with text := some "My Feed" } (by decide)
  simpa using h

/-- Claim C9: `appid_to_rss_url` is pure and total and returns exactly
`https://steamcommunity.com/games/` ++ id ++ `/rss/`; on numeric AppIDs
(rendered by Rust's decimal `Display`) it is injective. -/
theorem c9_appid_url :
    (∀ id : String,
        appid_to_rss_url id = "https://steamcommunity.com/games/" ++ id ++ "/rss/")
    ∧ ∀ m n : Nat,
        appid_to_rss_url (natDecimal m) = appid_to_rss_url (natDecimal n) → m = n := by
  refine ⟨fun id => rfl, fun m n h => ?_⟩
  have h2 : ("https://steamcommunity.com/games/".data ++ (natDecimal m).data)
        ++ "/rss/".data
      = ("https://steamcommunity.com/games/".data ++ (natDecimal n).data)
        ++ "/rss/".data := by
    have hdata := congrArg String.data h
    simpa [appid_to_rss_url, String.data_append] using hdata
  have h3 := List.append_cancel_right h2
  have h4 := List.append_cancel_left h3
  exact natDecimal_inj (congrArg String.mk h4)

/-- Witness for the URL-builder claim at a concrete AppID. -/
theorem c9_witness :
    appid_to_rss_url (natDecimal 400) = "https://steamcommunity.com/games/400/rss/"
    ∧ (400 : Nat) = 400 :=
  ⟨by decide, c9_appid_url.2 400 400 rfl⟩

/-- Claim C5: resolution of a raw `user` input.  A whole-string `\w+` match
is used directly as the user identifier; otherwise a contained
profile-URL match contributes its captured identifier; otherwise the input
contributes zero candidates and zero diagnostics (silent skip, no error). -/
theorem c5_user_resolution (scrape : String → Option (List SteamApp)) (u : String) :
    (∀ games, looksLikeBareUserId u = true →
        scrape (userid_to_games_url u) = some games →
        collectFeeds [] [] [u] scrape = (games.map gameFeed, []))
    ∧ (∀ id games, looksLikeBareUserId u = false →
        extractUserIdFromProfileUrl u = some id →
        scrape (userid_to_games_url id) = some games →
        collectFeeds [] [] [u] scrape = (games.map gameFeed, []))
    ∧ (looksLikeBareUserId u = false → extractUserIdFromProfileUrl u = none →
        collectFeeds [] [] [u] scrape = ([], [])) := by
  refine ⟨?_, ?_, ?_⟩
  · intro games hbare hscrape
    rw [collectFeeds_eq]
    simp [userContribution, resolveUserGamesUrl, hbare, hscrape]
  · intro id games hbare hurl hscrape
    rw [collectFeeds_eq]
    simp [userContribution, resolveUserGamesUrl, hbare, hurl, hscrape]
  · intro hbare hurl
    rw [collectFeeds_eq]
    simp [userContribution, resolveUserGamesUrl, hbare, hurl]

/-- Witness for the user-resolution claim: a bare identifier, a profile URL
embedded in surrounding text, and an unresolvable input. -/
theorem c5_witness :
    collectFeeds [] [] ["gabelogannewell"]
        (fun _ => some [⟨400, "Portal", .str "Portal"⟩])
      = ([gameFeed ⟨400, "Portal", .str "Portal"⟩], [])
    ∧ collectFeeds [] [] ["See https://steamcommunity.com/id/gabe please"]
        (fun _ => some []) = ([], [])
    ∧ collectFeeds [] [] ["not a valid user!!"] (fun _ => some []) = ([], []) := by
  refine ⟨?_, ?_, ?_⟩
  · have h := (c5_user_resolution (fun _ => some [⟨400, "Portal", .str "Portal"⟩])
      "gabelogannewell").1 [⟨400, "Portal", .str "Portal"⟩] (by decide) rfl
    simpa using h
  · have h := (c5_user_resolution (fun _ => some [])
      "See https://steamcommunity.com/id/gabe please").2.1 "gabe" [] (by decide)
      (by decide) rfl
    simpa using h
  · exact (c5_user_resolution (fun _ => some []) "not a valid user!!").2.2
      (by decide) (by decide)

/-- Claim C6: the candidate built from a scraped game record has a fallback
URL exactly when the record's `friendlyURL` JSON field is a string, and that
fallback is `appid_to_rss_url` of the string. -/
theorem c6_friendly_url_rule (game : SteamApp) :
    ((gameFeed game).friendly_url.isSome = true ↔ game.friendly_url.isString = true)
    ∧ (∀ s, game.friendly_url = .str s →
        (gameFeed game).friendly_url = some (appid_to_rss_url s))
    ∧ (game.friendly_url.isString = false → (gameFeed game).friendly_url = none) := by
  refine ⟨?_, ?_, ?_⟩
  · cases hf : game.friendly_url <;> simp [gameFeed, JValue.isString, hf]
  · intro s hf
    simp [gameFeed, hf]
  · intro hf
    cases hg : game.friendly_url <;>
      simp [hg, JValue.isString] at hf ⊢ <;> simp [gameFeed, hg]

/-- Witness for the fallback-URL rule: a string `friendlyURL` and a boolean
`friendlyURL`. -/
theorem c6_witness :
    (gameFeed ⟨400, "Portal", .str "Portal"⟩).friendly_url
        = some (appid_to_rss_url "Portal")
    ∧ (gameFeed ⟨400, "Portal", .bool false⟩).friendly_url = none :=
  ⟨(c6_friendly_url_rule ⟨400, "Portal", .str "Portal"⟩).2.1 "Portal" rfl,
   (c6_friendly_url_rule ⟨400, "Portal", .bool false⟩).2.2 rfl⟩

/-- Claim C7: the candidate list is built in input-processing order — the
appid loop, then the url loop, then the user loop, each preserving its
input order — with no deduplication: duplicate appids yield duplicate
candidates and, when both verify, duplicate output lines. -/
theorem c7_collection_order (appids : List Nat) (urls : List String)
    (users : List String) (scrape : String → Option (List SteamApp)) :
    collectFeeds appids urls users scrape
      = (appids.map appidFeed
          ++ urls.filterMap (fun url => (extractAppIdFromStoreUrl url).map appidFeed)
          ++ (users.map fun u => (userContribution scrape u).1).flatten,
         (users.map fun u => (userContribution scrape u).2).flatten)
    ∧ (∀ a : Nat, collectFeeds [a, a] [] [] scrape = ([appidFeed a, appidFeed a], []))
    ∧ ∀ (a : Nat) (http : String → Response) (t : String),
        (http (appid_to_rss_url (natDecimal a))).contentType = "text/xml" →
        extractTitle (http (appid_to_rss_url (natDecimal a))).body = some t →
        runPipeline [a, a] [] [] scrape true false http
          = some { stdout := [OutLine.url (appid_to_rss_url (natDecimal a)),
                              OutLine.url (appid_to_rss_url (natDecimal a))],
                   stderr := [] } := by
  refine ⟨collectFeeds_eq appids urls users scrape, ?_, ?_⟩
  · intro a
    rw [collectFeeds_eq]
    simp
  · intro a http t h1 h2
    have hcol : collectFeeds [a, a] [] [] scrape = ([appidFeed a, appidFeed a], []) := by
      rw [collectFeeds_eq]; simp
    have hstep : verifyStep http (appidFeed a)
        = .confirmed { friendly_url := none, text := some t,
                       url := appid_to_rss_url (natDecimal a) } := by
      simp [verifyStep, verify_feed, appidFeed, h1, h2]
    simp [runPipeline, hcol, verifyAll, hstep]

/-- Witness for the ordering/no-deduplication claim: a duplicated AppID that
verifies twice and prints its URL twice. -/
theorem c7_witness :
    runPipeline [400, 400] [] [] (fun _ => none) true false
        (fun _ => { contentType := "text/xml", body := "<x><title>T</title></x>" })
      = some { stdout := [OutLine.url (appid_to_rss_url (natDecimal 400)),
                          OutLine.url (appid_to_rss_url (natDecimal 400))],
               stderr := [] } :=
  (c7_collection_order [] [] [] (fun _ => none)).2.2 400
    (fun _ => { contentType := "text/xml", body := "<x><title>T</title></x>" })
    "T" rfl (by decide)

/-- Claim C8 as stated is false on one point: at an empty surviving set the
program prints the diagnostic `No feeds found.` (capitalised, with a full
stop), not the string `no feeds found` quoted by the claim. -/
theorem c8_counterexample :
    runPipeline [] [] [] (fun _ => none) false false
        (fun _ => { contentType := "", body := "" })
      = some { stdout := [], stderr := ["No feeds found."] }
    ∧ "No feeds found." ≠ "no feeds found"
    ∧ ("no feeds found" ∈ (["No feeds found."] : List String)) = False := by
  refine ⟨by decide, by decide, by simp⟩

/-- Claim C8 (amended): whenever the surviving candidate set is empty —
in particular with no inputs at all — the run prints the single diagnostic
`No feeds found.` on the error stream after any collection diagnostics,
produces no normal output, and terminates successfully (`some` result,
modelling `Ok(())`). -/
theorem c8_no_feeds_message (appids : List Nat) (urls : List String)
    (users : List String) (scrape : String → Option (List SteamApp))
    (http : String → Response) (verifyFlag opmlFlag : Bool)
    (hempty : (if verifyFlag then
        verifyAll http (collectFeeds appids urls users scrape).1
      else some (collectFeeds appids urls users scrape).1) = some []) :
    runPipeline appids urls users scrape verifyFlag opmlFlag http
      = some { stdout := [],
               stderr := (collectFeeds appids urls users scrape).2
                 ++ ["No feeds found."] } := by
  simp [runPipeline, hempty]

/-- Witness for the empty-result claim: the empty-input run. -/
theorem c8_witness :
    runPipeline [] [] [] (fun _ => none) false false
        (fun _ => { contentType := "", body := "" })
      = some { stdout := [],
               stderr := (collectFeeds [] [] [] (fun _ => none)).2
                 ++ ["No feeds found."] } :=
  c8_no_feeds_message [] [] [] (fun _ => none)
    (fun _ => { contentType := "", body := "" }) false false (by decide)

/-- Claim C10: every candidate is constructed with a present display text,
so the OPML title fallback to the URL is never exercised, neither on the
collected candidates nor on the verified survivors. -/
theorem c10_display_text (appids : List Nat) (urls : List String)
    (users : List String) (scrape : String → Option (List SteamApp)) :
    (∀ f ∈ (collectFeeds appids urls users scrape).1,
        ∃ t, f.text = some t ∧ opmlEntry f = (t, f.url))
    ∧ ∀ (http : String → Response) (feeds : List Feed),
        verifyAll http (collectFeeds appids urls users scrape).1 = some feeds →
        ∀ g ∈ feeds, ∃ t, g.text = some t ∧ opmlEntry g = (t, g.url) := by
  constructor
  · intro f hf
    have htext : ∃ t, f.text = some t := by
      rw [collectFeeds_eq] at hf
      simp only [List.mem_append] at hf
      rcases hf with (hf | hf) | hf
      · obtain ⟨a, _, rfl⟩ := List.mem_map.mp hf
        exact ⟨"Steam AppID " ++ natDecimal a, rfl⟩
      · obtain ⟨u, _, hfu⟩ := List.mem_filterMap.mp hf
        obtain ⟨a, _, rfl⟩ := Option.map_eq_some'.mp hfu
        exact ⟨"Steam AppID " ++ natDecimal a, rfl⟩
      · obtain ⟨l, hl, hfl⟩ := List.mem_flatten.mp hf
        obtain ⟨u, _, rfl⟩ := List.mem_map.mp hl
        exact userContribution_text scrape u f hfl
    obtain ⟨t, ht⟩ := htext
    exact ⟨t, ht, by simp [opmlEntry, ht]⟩
  · intro http feeds h g hg
    obtain ⟨t, ht⟩ := verifyAll_text http _ feeds h g hg
    exact ⟨t, ht, by simp [opmlEntry, ht]⟩

/-- Witness for the display-text claim at a concrete collected candidate. -/
theorem c10_witness :
    ∃ t, (appidFeed 400).text = some t
      ∧ opmlEntry (appidFeed 400) = (t, (appidFeed 400).url) :=
  (c10_display_text [400] [] [] (fun _ => none)).1 (appidFeed 400) (by decide)

theorem ciLit_some_iff :
    ∀ (pat l r : List Char),
      ciLit pat l = some r ↔ ∃ pre, l = pre ++ r ∧ pre.map lowerChar = pat := by
  intro pat
  induction pat with
  | nil =>
    intro l r
    simp only [ciLit, Option.some.injEq]
    constructor
    · rintro rfl
      exact ⟨[], rfl, rfl⟩
    · rintro ⟨pre, rfl, hm⟩
      have hpre : pre = [] := by
        cases pre with
        | nil => rfl
        | cons c cs => simp at hm
      simp [hpre]
  | cons p ps ih =>
    intro l r
    cases l with
    | nil =>
      simp only [ciLit]
      constructor
      · intro h; exact absurd h (by simp)
      · rintro ⟨pre, hl, hm⟩
        cases pre with
        | nil => simp at hm
        | cons c cs => simp at hl
    | cons c cs =>
      simp only [ciLit]
      by_cases hc : lowerChar c = p
      · rw [if_pos hc, ih]
        constructor
        · rintro ⟨pre, rfl, hm⟩
          exact ⟨c :: pre, by simp, by simp [hm, hc]⟩
        · rintro ⟨pre, hl, hm⟩
          cases pre with
          | nil => simp at hm
          | cons c' pre' =>
            simp only [List.cons_append, List.cons.injEq] at hl
            simp only [List.map_cons, List.cons.injEq] at hm
            exact ⟨pre', hl.2, hm.2⟩
      · rw [if_neg hc]
        constructor
        · intro h; exact absurd h (by simp)
        · rintro ⟨pre, hl, hm⟩
          cases pre with
          | nil => simp at hm
          | cons c' pre' =>
            simp only [List.cons_append, List.cons.injEq] at hl
            simp only [List.map_cons, List.cons.injEq] at hm
            exact absurd (by rw [hl.1]; exact hm.1) hc

theorem anyDot_some_iff (l r : List Char) :
    anyDot l = some r ↔ ∃ c, l = c :: r ∧ c ≠ '\n' := by
  cases l with
  | nil => simp [anyDot]
  | cons c cs =>
    by_cases hc : c = '\n'
    · subst hc
      simp [anyDot]
    · simp only [anyDot, if_neg hc, Option.some.injEq, List.cons.injEq]
      constructor
      · rintro rfl
        exact ⟨c, ⟨rfl, rfl⟩, hc⟩
      · rintro ⟨c1, ⟨rfl, rfl⟩, h⟩
        rfl

theorem dropWhile_head_false {p : Char → Bool} :
    ∀ (l t : List Char) (c : Char), l.dropWhile p = c :: t → p c = false := by
  intro l
  induction l with
  | nil => intro t c h; simp [List.dropWhile] at h
  | cons x xs ih =>
    intro t c h
    by_cases hx : p x = true
    · rw [List.dropWhile_cons_of_pos hx] at h
      exact ih t c h
    · rw [List.dropWhile_cons_of_neg hx] at h
      cases h
      simpa using hx

theorem takeWhile_split {p : Char → Bool} :
    ∀ (ds rest : List Char), (∀ c ∈ ds, p c = true) →
      (∀ c, rest.head? = some c → p c = false) →
      (ds ++ rest).takeWhile p = ds := by
  intro ds
  induction ds with
  | nil =>
    intro rest _ hr
    cases rest with
    | nil => simp
    | cons c t =>
      have := hr c rfl
      simp [List.takeWhile_cons, this]
  | cons d ds ih =>
    intro rest hd hr
    have hpd : p d = true := hd d (by simp)
    have hih := ih rest (fun c hc => hd c (by simp [hc])) hr
    simp [List.takeWhile_cons, hpd, hih]

theorem optS_cons_s {c : Char} (cs : List Char) (h : lowerChar c = 's') :
    optS (c :: cs) = cs := by
  simp [optS, h]

theorem optS_cons_ne {c : Char} (cs : List Char) (h : lowerChar c ≠ 's') :
    optS (c :: cs) = c :: cs := by
  simp [optS, h]

theorem storeDigits_some_iff (s ds : List Char) :
    storeDigits s = some ds ↔
      ∃ pre rest, s = pre ++ ds ++ rest ∧ StoreHeadCI pre ∧ ds ≠ [] ∧
        (∀ c ∈ ds, isAsciiDigit c = true) ∧
        (∀ c, rest.head? = some c → isAsciiDigit c = false) := by
  constructor
  · intro h
    simp only [storeDigits, Option.bind_eq_some] at h
    obtain ⟨r1, h1, r2, h2, r3, h3, r4, h4, r5, h5, r6, h6, hfin⟩ := h
    obtain ⟨a, rfl, hma⟩ := (ciLit_some_iff _ _ _).mp h1
    -- the final digit step
    have hsplit : ∃ rest, r6 = (r6.takeWhile isAsciiDigit) ++ rest ∧
        r6.takeWhile isAsciiDigit = ds ∧ ds ≠ [] ∧
        (∀ c ∈ ds, isAsciiDigit c = true) ∧
        (∀ c, rest.head? = some c → isAsciiDigit c = false) := by
      by_cases hemp : (r6.takeWhile isAsciiDigit).isEmpty = true
      · rw [if_pos hemp] at hfin; exact absurd hfin (by simp)
      · rw [if_neg hemp] at hfin
        have hds : r6.takeWhile isAsciiDigit = ds := by
          simpa using hfin
        rw [hds] at hemp
        refine ⟨r6.dropWhile isAsciiDigit,
          (List.takeWhile_append_dropWhile isAsciiDigit r6).symm, hds, ?_, ?_, ?_⟩
        · rintro rfl; exact hemp rfl
        · intro c hc
          rw [← hds] at hc
          exact List.mem_takeWhile_imp hc
        · intro c hc
          cases hrest : r6.dropWhile isAsciiDigit with
          | nil => rw [hrest] at hc; simp at hc
          | cons c' t =>
            rw [hrest] at hc
            simp only [List.head?_cons, Option.some.injEq] at hc
            exact hc ▸ dropWhile_head_false r6 t c' hrest
    obtain ⟨rest, hr6, hds, hne, hdig, hrest⟩ := hsplit
    rw [hds] at hr6
    -- the anyDot and literal steps
    obtain ⟨d1, rfl, hd1⟩ := (anyDot_some_iff _ _).mp h3
    obtain ⟨cpart, rfl, hmc⟩ := (ciLit_some_iff _ _ _).mp h4
    obtain ⟨d2, rfl, hd2⟩ := (anyDot_some_iff _ _).mp h5
    obtain ⟨e, rfl, hme⟩ := (ciLit_some_iff _ _ _).mp h6
    -- the optional `s` after `http`
    cases r1 with
    | nil =>
      rw [show optS [] = [] from rfl] at h2
      obtain ⟨b, hb, hmb⟩ := (ciLit_some_iff _ _ _).mp h2
      obtain ⟨rfl, -⟩ := List.append_eq_nil.mp hb.symm
      exact absurd hmb (by decide)
    | cons c1 r1' =>
      by_cases hs1 : lowerChar c1 = 's'
      · rw [optS_cons_s _ hs1] at h2
        obtain ⟨b, rfl, hmb⟩ := (ciLit_some_iff _ _ _).mp h2
        refine ⟨a ++ [c1] ++ b ++ [d1] ++ cpart ++ [d2] ++ e, rest, ?_, ?_, hne, hdig, hrest⟩
        · rw [hr6]; simp [List.append_assoc]
        · exact ⟨a, [c1], b, d1, cpart, d2, e, rfl, hma,
            Or.inr ⟨c1, rfl, hs1⟩, hmb, hd1, hmc, hd2, hme⟩
      · rw [optS_cons_ne _ hs1] at h2
        obtain ⟨b, hb, hmb⟩ := (ciLit_some_iff _ _ _).mp h2
        refine ⟨a ++ [] ++ b ++ [d1] ++ cpart ++ [d2] ++ e, rest, ?_, ?_, hne, hdig, hrest⟩
        · rw [hb, hr6]; simp [List.append_assoc]
        · exact ⟨a, [], b, d1, cpart, d2, e, rfl, hma,
            Or.inl rfl, hmb, hd1, hmc, hd2, hme⟩
  · rintro ⟨pre, rest, hs, ⟨a, sPart, b, d1, cpart, d2, e, hpre, hma, hsp, hmb, hd1, hmc, hd2, hme⟩,
      hne, hdig, hrest⟩
    simp only [CIis] at hma hmb hmc hme
    subst hpre
    subst hs
    simp only [List.append_assoc, List.cons_append, List.singleton_append]
    simp only [storeDigits, Option.bind_eq_some]
    have step1 : ciLit "http".data
        (a ++ (sPart ++ (b ++ (d1 :: (cpart ++ (d2 :: (e ++ (ds ++ rest))))))))
        = some (sPart ++ (b ++ (d1 :: (cpart ++ (d2 :: (e ++ (ds ++ rest))))))) :=
      (ciLit_some_iff _ _ _).mpr ⟨a, rfl, hma⟩
    have hopt : optS (sPart ++ (b ++ (d1 :: (cpart ++ (d2 :: (e ++ (ds ++ rest)))))))
        = b ++ (d1 :: (cpart ++ (d2 :: (e ++ (ds ++ rest))))) := by
      rcases hsp with rfl | ⟨sc, rfl, hsc⟩
      · cases b with
        | nil => exact absurd hmb (by decide)
        | cons b0 b' =>
          have hb0 : lowerChar b0 = ':' := by
            have hmb2 := hmb
            simp only [List.map_cons, List.cons.injEq] at hmb2
            exact hmb2.1
          simp only [List.nil_append, List.cons_append]
          exact optS_cons_ne _ (by rw [hb0]; decide)
      · simp only [List.singleton_append, List.cons_append]
        exact optS_cons_s _ hsc
    have step2 : ciLit "://store".data
        (optS (sPart ++ (b ++ (d1 :: (cpart ++ (d2 :: (e ++ (ds ++ rest))))))))
        = some (d1 :: (cpart ++ (d2 :: (e ++ (ds ++ rest))))) := by
      rw [hopt]
      exact (ciLit_some_iff _ _ _).mpr ⟨b, rfl, hmb⟩
    have step3 : anyDot (d1 :: (cpart ++ (d2 :: (e ++ (ds ++ rest)))))
        = some (cpart ++ (d2 :: (e ++ (ds ++ rest)))) :=
      (anyDot_some_iff _ _).mpr ⟨d1, rfl, hd1⟩
    have step4 : ciLit "steampowered".data (cpart ++ (d2 :: (e ++ (ds ++ rest))))
        = some (d2 :: (e ++ (ds ++ rest))) :=
      (ciLit_some_iff _ _ _).mpr ⟨cpart, rfl, hmc⟩
    have step5 : anyDot (d2 :: (e ++ (ds ++ rest))) = some (e ++ (ds ++ rest)) :=
      (anyDot_some_iff _ _).mpr ⟨d2, rfl, hd2⟩
    have step6 : ciLit "com/app/".data (e ++ (ds ++ rest)) = some (ds ++ rest) :=
      (ciLit_some_iff _ _ _).mpr ⟨e, rfl, hme⟩
    have htw : (ds ++ rest).takeWhile isAsciiDigit = ds :=
      takeWhile_split ds rest hdig hrest
    have hfinal : (if ((ds ++ rest).takeWhile isAsciiDigit).isEmpty = true then none
        else some ((ds ++ rest).takeWhile isAsciiDigit)) = some ds := by
      rw [htw]
      cases ds with
      | nil => exact absurd rfl hne
      | cons d0 ds' => simp [List.isEmpty]
    exact ⟨_, step1, _, step2, _, step3, _, step4, _, step5, _, step6, hfinal⟩

/-- Claim C4 as stated is false: the dots in `store_url_regex` are unescaped
metacharacters, so a URL whose dots are replaced by other characters still
yields an AppID, while the literal-dot pattern quoted by the claim rejects
that URL (the literal matcher finds no digits to capture). -/
theorem c4_counterexample :
    extractAppIdFromStoreUrl "https://storeXsteampoweredYcom/app/400" = some 400
    ∧ storeLiteralDigits "https://storeXsteampoweredYcom/app/400".data = none := by
  constructor
  · decide
  · decide

/-- Claim C4 (amended): `extractAppIdFromStoreUrl` returns an integer
exactly when the input starts (case-insensitively) with
`http(s)://store·steampowered·com/app/<digits>` where each `·` matches one
arbitrary non-newline character (the regex dots are unescaped), and the
result is the maximal captured digit run parsed as a 64-bit `usize`
(absent on overflow).  In particular it returns 400 for
`https://store.steampowered.com/app/400` and for
`HTTP://STORE.STEAMPOWERED.COM/APP/400/extra-path`, and absent for
`https://example.com/app/400`. -/
theorem c4_store_url_extraction :
    (∀ (url : String) (n : Nat),
      extractAppIdFromStoreUrl url = some n ↔
        ∃ pre ds rest, url.data = pre ++ ds ++ rest ∧ StoreHeadCI pre ∧ ds ≠ [] ∧
          (∀ c ∈ ds, isAsciiDigit c = true) ∧
          (∀ c, rest.head? = some c → isAsciiDigit c = false) ∧
          digitsToNat ds = n ∧ digitsToNat ds < 2 ^ 64)
    ∧ extractAppIdFromStoreUrl "https://store.steampowered.com/app/400" = some 400
    ∧ extractAppIdFromStoreUrl "HTTP://STORE.STEAMPOWERED.COM/APP/400/extra-path"
        = some 400
    ∧ extractAppIdFromStoreUrl "https://example.com/app/400" = none := by
  refine ⟨?_, by decide, by decide, by decide⟩
  intro url n
  constructor
  · intro h
    simp only [extractAppIdFromStoreUrl, Option.bind_eq_some] at h
    obtain ⟨ds, hds, hparse⟩ := h
    obtain ⟨pre, rest, h1, h2, h3, h4, h5⟩ := (storeDigits_some_iff _ _).mp hds
    by_cases hlt : digitsToNat ds < 2 ^ 64
    · rw [parseUsize, if_pos hlt] at hparse
      exact ⟨pre, ds, rest, h1, h2, h3, h4, h5, by simpa using hparse, hlt⟩
    · rw [parseUsize, if_neg hlt] at hparse
      exact absurd hparse (by simp)
  · rintro ⟨pre, ds, rest, h1, h2, h3, h4, h5, rfl, hlt⟩
    have hsd : storeDigits url.data = some ds :=
      (storeDigits_some_iff _ _).mpr ⟨pre, rest, h1, h2, h3, h4, h5⟩
    simp only [extractAppIdFromStoreUrl, hsd, Option.some_bind, parseUsize,
      if_pos hlt]

/-- Witness for the store-URL claim: the canonical store URL decomposed into
the shape the amended claim describes. -/
theorem c4_witness :
    ∃ pre ds rest,
      ("https://store.steampowered.com/app/400").data = pre ++ ds ++ rest ∧
      StoreHeadCI pre ∧ ds ≠ [] ∧ (∀ c ∈ ds, isAsciiDigit c = true) ∧
      (∀ c, rest.head? = some c → isAsciiDigit c = false) ∧
      digitsToNat ds = 400 ∧ digitsToNat ds < 2 ^ 64 :=
  (c4_store_url_extraction.1 "https://store.steampowered.com/app/400" 400).mp
    (by decide)
